import Mathlib

/-!
Shallow embedding of the sudoku solver core of this repository, from the
files sudoku.py (the 9x9 variant, printed header sudoku9.py) and
sudoku4.py (the 4x4 variant): the adjacency predicates, the constraint
graph construction, clue extraction, the decoding of a vertex coloring
back to a digit grid, and the conflict-count scorer.

Modelling conventions. Python dictionaries are modelled as functions
into Option when they are only read (the colorings received from the
solver) and as fold-of-inserts when the source builds them from a pair
sequence (the color-to-digit lookup of decode, where a later insert
overwrites an earlier one). Color labels are opaque Python values
compared only for equality; they are modelled by a type with integer and
string labels, which covers every value the repository can feed to
decode: solver colorings use integers and the sentinel default of decode
is the Python string "?". Grids are lists of characters and the
str.isdigit test is modelled over the ASCII digits, the only characters
the repository feeds it.
-/

/-- Opaque color labels handed back by the coloring solvers, together
with the string values the source compares them with. -/
inductive Color where
  | nat (n : Nat) : Color
  | str (s : String) : Color
deriving DecidableEq

/-- The pair stream of itertools.combinations(l, 2): all pairs of list
elements taken at one position and a strictly later position. -/
def comb2 {α : Type*} : List α → List (α × α)
  | [] => []
  | x :: xs => (xs.map fun y => (x, y)) ++ comb2 xs

/-- One Python dict insert, d[c] = v, on a dict queried as a function. -/
def insertFn (f : Color → Option Nat) (c : Color) (v : Nat) : Color → Option Nat :=
  fun x => if x = c then some v else f x

/-- A Python dict built from a sequence of key-value pairs by successive
inserts, a later pair overwriting an earlier one with the same key. -/
def dictOf (pairs : List (Color × Nat)) : Color → Option Nat :=
  pairs.foldl (fun f q => insertFn f q.1 q.2) (fun _ => none)

/-- A Python list comprehension whose element expression may raise a
lookup error: either every element evaluates and the list of results is
returned, or the whole comprehension fails. -/
def mapOpt {α β : Type*} (f : α → Option β) : List α → Option (List β)
  | [] => some []
  | a :: t => (f a).bind fun b => (mapOpt f t).map fun l => b :: l

/-- The clue-pair edges that both make_sudoku_graph functions add: one
undirected edge between the cells of every combinations pair of clues
holding distinct values. Stated as membership of the unordered edge
(u, v). -/
def cluePairEdge (clues : List (Nat × Nat)) (u v : Nat) : Prop :=
  ∃ q ∈ comb2 clues, q.1.2 ≠ q.2.2 ∧ ((q.1.1 = u ∧ q.2.1 = v) ∨ (q.1.1 = v ∧ q.2.1 = u))

instance (clues : List (Nat × Nat)) (u v : Nat) : Decidable (cluePairEdge clues u v) := by
  unfold cluePairEdge
  infer_instance

namespace Sudoku

/-- adjacent from sudoku.py: distinct cells in the same row, the same
column, or the same 3x3 block. -/
def adjacent (i j : Nat) : Prop :=
  i ≠ j ∧ (i / 9 = j / 9 ∨ i % 9 = j % 9 ∨ (i / 27 = j / 27 ∧ i % 9 / 3 = j % 9 / 3))

instance (i j : Nat) : Decidable (adjacent i j) := by
  unfold adjacent
  infer_instance

/-- make_sudoku_graph from sudoku.py, modelled by the membership relation
of the undirected edge set of the returned graph: the structural edges,
combinations(range(81), 2) filtered by adjacent, plus the clue-pair
edges. -/
def make_sudoku_graph (clues : List (Nat × Nat)) (u v : Nat) : Prop :=
  (∃ p ∈ comb2 (List.range 81), adjacent p.1 p.2 ∧ ((p.1 = u ∧ p.2 = v) ∨ (p.1 = v ∧ p.2 = u)))
  ∨ cluePairEdge clues u v

instance (clues : List (Nat × Nat)) (u v : Nat) : Decidable (make_sudoku_graph clues u v) := by
  unfold make_sudoku_graph
  infer_instance

/-- The default used by coloring.get(i, ...) inside decode of sudoku.py:
the Python string "?". -/
def sentinel : Color := Color.str "?"

/-- The dict comprehension of decode in sudoku.py: iterate the clues in
order and insert coloring[x] -> y whenever cell x is a key of the
coloring, a later insert overwriting an earlier one. -/
def lookupFun (coloring : Nat → Option Color) (clues : List (Nat × Nat)) : Color → Option Nat :=
  dictOf (clues.filterMap fun p => (coloring p.1).map fun c => (c, p.2))

/-- decode from sudoku.py: for every real cell index, look the color of
the cell up in the color-to-digit dict, with sentinel default for the
missing cell and fallback digit 9 for the missing color. -/
def decode (coloring : Nat → Option Color) (clues : List (Nat × Nat)) : List Nat :=
  (List.range 81).map fun i => (lookupFun coloring clues ((coloring i).getD sentinel)).getD 9

/-- ASCII model of the Python str.isdigit test on one character: the
character codes of the ten decimal digits are 48 to 57. -/
def isdigit (c : Char) : Bool := decide (48 ≤ c.toNat) && decide (c.toNat ≤ 57)

/-- int(x) on a single decimal digit character. -/
def charDigit (c : Char) : Nat := c.toNat - 48

/-- The real clues of make_clues in sudoku.py: every enumerated grid
position holding a digit other than the zero character, code 48, paired
with its numeric value. -/
def realClues (board : List Char) : List (Nat × Nat) :=
  (board.enum.filter fun p => isdigit p.2 && decide (p.2.toNat ≠ 48)).map
    fun p => (p.1, charDigit p.2)

/-- The set difference set(range(1, 10)) - clue values of make_clues in
sudoku.py, iterated as the ascending list that a CPython set of small
integers produces. -/
def missingVals (board : List Char) : List Nat :=
  (List.range' 1 9).filter fun v => decide (v ∉ (realClues board).map Prod.snd)

/-- make_clues from sudoku.py: the real clues plus one phantom clue per
missing value, at the fresh indices 81, 82, and so on. -/
def make_clues (board : List Char) : List (Nat × Nat) :=
  realClues board ++ ((missingVals board).enum.map fun p => (81 + p.1, p.2))

/-- cost from sudoku.py: over combinations(range(81), 2) filtered by
adjacent, count the pairs whose two entries of the solution agree. -/
def cost (a : List Nat) : Nat :=
  (comb2 (List.range 81)).countP fun p =>
    decide (adjacent p.1 p.2) && decide (a.getD p.1 0 = a.getD p.2 0)

/-- Scorer restated from the words of the specification: the number of
unordered cell-index pairs (i, j) with i < j < 81 that are adjacent and
hold the same value. This definition follows the spec text and is
compared with cost, which is translated from the source. -/
def cost_spec (a : List Nat) : Nat :=
  ((Finset.range 81 ×ˢ Finset.range 81).filter fun p =>
    p.1 < p.2 ∧ adjacent p.1 p.2 ∧ a.getD p.1 0 = a.getD p.2 0).card

end Sudoku

namespace Sudoku4

/-- adjacent from sudoku4.py: distinct cells agreeing under one of the
bitmasks 3, 10, 12. -/
def adjacent (i j : Nat) : Prop :=
  i ≠ j ∧ ∃ k ∈ ([3, 10, 12] : List Nat), i &&& k = j &&& k

instance (i j : Nat) : Decidable (adjacent i j) := by
  unfold adjacent
  infer_instance

/-- make_sudoku_graph from sudoku4.py, modelled as for the 9x9 variant:
structural edges over combinations(range(16), 2) plus the clue-pair
edges. -/
def make_sudoku_graph (clues : List (Nat × Nat)) (u v : Nat) : Prop :=
  (∃ p ∈ comb2 (List.range 16), adjacent p.1 p.2 ∧ ((p.1 = u ∧ p.2 = v) ∨ (p.1 = v ∧ p.2 = u)))
  ∨ cluePairEdge clues u v

instance (clues : List (Nat × Nat)) (u v : Nat) : Decidable (make_sudoku_graph clues u v) := by
  unfold make_sudoku_graph
  infer_instance

/-- decode from sudoku4.py, which may raise a lookup error: first the
dict comprehension evaluates coloring[x] for every clue with no guard
and no default, then every cell of the grid is decoded through
lookup[coloring[i]] with no default. The result is the list the source
hands to disp, or a failure when any lookup raises. -/
def decode (coloring : Nat → Option Color) (clues : List (Nat × Nat)) : Option (List Nat) :=
  match mapOpt (fun p => (coloring p.1).map fun c => (c, p.2)) clues with
  | none => none
  | some pairs =>
    mapOpt (fun i =>
      match coloring i with
      | some c => dictOf pairs c
      | none => none) (List.range 16)

end Sudoku4

section Helpers

theorem mem_comb2_cons {α : Type*} (x : α) (l : List α) (p : α × α) :
    p ∈ comb2 (x :: l) ↔ (∃ b ∈ l, p = (x, b)) ∨ p ∈ comb2 l := by
  simp only [comb2, List.mem_append, List.mem_map]
  constructor
  · rintro (⟨b, hb, rfl⟩ | h)
    · exact Or.inl ⟨b, hb, rfl⟩
    · exact Or.inr h
  · rintro (⟨b, hb, rfl⟩ | h)
    · exact Or.inl ⟨b, hb, rfl⟩
    · exact Or.inr h

theorem mem_comb2_sublist {α : Type*} {l : List α} {p : α × α} (h : p ∈ comb2 l) :
    List.Sublist [p.1, p.2] l := by
  induction l with
  | nil => simp [comb2] at h
  | cons x xs ih =>
    rcases (mem_comb2_cons x xs p).mp h with ⟨b, hb, hp⟩ | h2
    · subst hp
      exact (List.singleton_sublist.mpr hb).cons₂ x
    · exact (ih h2).cons x

theorem mem_comb2_append {α : Type*} (l1 l2 : List α) (p : α × α) :
    p ∈ comb2 (l1 ++ l2) ↔ p ∈ comb2 l1 ∨ p ∈ comb2 l2 ∨ (p.1 ∈ l1 ∧ p.2 ∈ l2) := by
  obtain ⟨a, b⟩ := p
  induction l1 with
  | nil => simp [comb2]
  | cons x xs ih =>
    rw [List.cons_append, mem_comb2_cons, ih, mem_comb2_cons]
    simp only [List.mem_append, List.mem_cons, Prod.mk.injEq]
    constructor
    · rintro (⟨c, hc | hc, h1, h2⟩ | h | h | h)
      · exact Or.inl (Or.inl ⟨c, hc, h1, h2⟩)
      · subst h1; subst h2; exact Or.inr (Or.inr ⟨Or.inl rfl, hc⟩)
      · exact Or.inl (Or.inr h)
      · exact Or.inr (Or.inl h)
      · exact Or.inr (Or.inr ⟨Or.inr h.1, h.2⟩)
    · rintro ((⟨c, hc, h1, h2⟩ | h) | h | ⟨ha | ha, hb⟩)
      · exact Or.inl ⟨c, Or.inl hc, h1, h2⟩
      · exact Or.inr (Or.inl h)
      · exact Or.inr (Or.inr (Or.inl h))
      · subst ha; exact Or.inl ⟨b, Or.inr hb, rfl, rfl⟩
      · exact Or.inr (Or.inr (Or.inr ⟨ha, hb⟩))

theorem mem_comb2_range {n i j : Nat} : (i, j) ∈ comb2 (List.range n) ↔ i < j ∧ j < n := by
  induction n with
  | zero => simp [comb2]
  | succ m ih =>
    rw [List.range_succ, mem_comb2_append]
    simp [ih, comb2, List.mem_range]
    omega

theorem nodup_comb2 {α : Type*} {l : List α} (h : l.Nodup) : (comb2 l).Nodup := by
  induction l with
  | nil => simp [comb2]
  | cons x xs ih =>
    rw [comb2]
    refine List.nodup_append.mpr ⟨?_, ih (List.nodup_cons.mp h).2, ?_⟩
    · exact ((List.nodup_cons.mp h).2).map fun a b hab => by simpa using hab
    · intro p hp1 hp2
      obtain ⟨b, _, hpb⟩ := List.mem_map.mp hp1
      have hx : p.1 ∈ xs := (mem_comb2_sublist hp2).subset (by simp)
      rw [← hpb] at hx
      exact (List.nodup_cons.mp h).1 hx

end Helpers

section DictHelpers

theorem dictOf_apply (pairs : List (Color × Nat)) (c : Color) :
    dictOf pairs c = ((pairs.filter fun q => decide (q.1 = c)).map Prod.snd).getLast? := by
  induction pairs using List.reverseRecOn with
  | nil => rfl
  | append_singleton l q ih =>
    rw [dictOf, List.foldl_append, List.foldl_cons, List.foldl_nil, ← dictOf,
      List.filter_append, List.map_append]
    by_cases hq : q.1 = c
    · simp [hq, insertFn, List.getLast?_concat]
    · have hfq : List.filter (fun r => decide (r.1 = c)) [q] = [] := by simp [hq]
      rw [hfq, List.map_nil, List.append_nil]
      simp only [insertFn]
      rw [if_neg fun h => hq h.symm]
      exact ih

theorem getLast?_eq_of_all {α : Type*} {l : List α} {a : α} (hne : l ≠ [])
    (hall : ∀ x ∈ l, x = a) : l.getLast? = some a := by
  cases hl : l.getLast? with
  | none => exact absurd (List.getLast?_eq_none_iff.mp hl) hne
  | some b => rw [hall b (List.mem_of_mem_getLast? hl)]

theorem lookupFun_apply (coloring : Nat → Option Color) (clues : List (Nat × Nat)) (c : Color) :
    Sudoku.lookupFun coloring clues c =
      ((clues.filter fun p => decide (coloring p.1 = some c)).map Prod.snd).getLast? := by
  rw [Sudoku.lookupFun, dictOf_apply]
  congr 1
  induction clues with
  | nil => rfl
  | cons p t ih =>
    cases hc : coloring p.1 with
    | none => simp [List.filterMap_cons, hc, ih]
    | some c2 =>
      by_cases h2 : c2 = c
      · subst h2
        simp [List.filterMap_cons, hc, ih]
      · simp [List.filterMap_cons, hc, h2, ih, fun h : some c2 = some c => h2 (Option.some.inj h)]

theorem lookupFun_eq_none_iff (coloring : Nat → Option Color) (clues : List (Nat × Nat))
    (c : Color) :
    Sudoku.lookupFun coloring clues c = none ↔ ∀ p ∈ clues, coloring p.1 ≠ some c := by
  rw [lookupFun_apply]
  simp [List.getLast?_eq_none_iff, List.filter_eq_nil_iff]

theorem lookupFun_eq_some (coloring : Nat → Option Color) (clues : List (Nat × Nat))
    {c : Color} {v : Nat} (h : Sudoku.lookupFun coloring clues c = some v) :
    ∃ p ∈ clues, coloring p.1 = some c ∧ p.2 = v := by
  rw [lookupFun_apply] at h
  have hv := List.mem_of_mem_getLast? h
  simp only [List.mem_map, List.mem_filter, decide_eq_true_eq] at hv
  obtain ⟨p, ⟨hp, hpc⟩, hps⟩ := hv
  exact ⟨p, hp, hpc, hps⟩

theorem decode_getD (coloring : Nat → Option Color) (clues : List (Nat × Nat)) {i : Nat}
    (h : i < 81) :
    (Sudoku.decode coloring clues).getD i 0 =
      (Sudoku.lookupFun coloring clues ((coloring i).getD Sudoku.sentinel)).getD 9 := by
  rw [Sudoku.decode, List.getD_eq_getElem?_getD, List.getElem?_map, List.getElem?_range h]
  rfl

theorem mapOpt_eq_none_iff {α β : Type*} (f : α → Option β) (l : List α) :
    mapOpt f l = none ↔ ∃ a ∈ l, f a = none := by
  induction l with
  | nil => simp [mapOpt]
  | cons a t ih =>
    cases hfa : f a with
    | none => simp [mapOpt, hfa]
    | some b =>
      cases hmt : mapOpt f t with
      | none =>
        simp only [mapOpt, hfa, hmt, Option.some_bind]
        constructor
        · intro _
          obtain ⟨x, hxt, hx⟩ := ih.mp hmt
          exact ⟨x, List.mem_cons_of_mem a hxt, hx⟩
        · intro _
          rfl
      | some lb =>
        have hred : mapOpt f (a :: t) = some (b :: lb) := by
          simp only [mapOpt, hfa, hmt]
          rfl
        rw [hred]
        constructor
        · intro hcontr
          exact Option.noConfusion hcontr
        · rintro ⟨x, hx, hxn⟩
          rcases List.mem_cons.mp hx with rfl | hxt
          · rw [hfa] at hxn
            cases hxn
          · have h2 : mapOpt f t = none := ih.mpr ⟨x, hxt, hxn⟩
            rw [hmt] at h2
            cases h2

theorem mapOpt_eq_some_iff {α β : Type*} (f : α → Option β) (l : List α) (m : List β) :
    mapOpt f l = some m ↔ (∀ a ∈ l, (f a).isSome) ∧ m = l.filterMap f := by
  induction l generalizing m with
  | nil =>
    constructor
    · intro h
      injection h with h2
      exact ⟨fun x hx => absurd hx (List.not_mem_nil x), by rw [← h2]; rfl⟩
    · rintro ⟨-, rfl⟩
      rfl
  | cons a t ih =>
    cases hfa : f a with
    | none =>
      have hred : mapOpt f (a :: t) = none := by
        simp only [mapOpt, hfa]
        rfl
      rw [hred]
      constructor
      · intro hcontr
        exact Option.noConfusion hcontr
      · rintro ⟨hall, -⟩
        have h2 := hall a (List.mem_cons_self a t)
        rw [hfa] at h2
        cases h2
    | some b =>
      cases hmt : mapOpt f t with
      | none =>
        obtain ⟨x, hxt, hx⟩ := (mapOpt_eq_none_iff f t).mp hmt
        have hred : mapOpt f (a :: t) = none := by
          simp only [mapOpt, hfa, hmt]
          rfl
        rw [hred]
        constructor
        · intro hcontr
          exact Option.noConfusion hcontr
        · rintro ⟨hall, -⟩
          have h2 := hall x (List.mem_cons_of_mem a hxt)
          rw [hx] at h2
          cases h2
      | some lb =>
        have hih := (ih lb).mp hmt
        have hred : mapOpt f (a :: t) = some (b :: lb) := by
          simp only [mapOpt, hfa, hmt]
          rfl
        rw [hred, List.filterMap_cons, hfa]
        constructor
        · intro h
          injection h with h2
          subst h2
          refine ⟨?_, by rw [hih.2]⟩
          intro x hx
          rcases List.mem_cons.mp hx with rfl | hxt
          · rw [hfa]
            rfl
          · exact hih.1 x hxt
        · rintro ⟨-, rfl⟩
          rw [hih.2]

end DictHelpers

theorem dictOf_eq_none_iff (pairs : List (Color × Nat)) (c : Color) :
    dictOf pairs c = none ↔ ∀ q ∈ pairs, q.1 ≠ c := by
  rw [dictOf_apply]
  simp [List.getLast?_eq_none_iff, List.filter_eq_nil_iff]

/-- C3: on cell indices below 16, the bitmask adjacency test of the 4x4
variant agrees exactly with the row, column, 2x2-block characterization. -/
theorem claim_C3_adjacent4_bitmask_iff_rowcolblock :
    ∀ i < 16, ∀ j < 16, (Sudoku4.adjacent i j ↔
      (i ≠ j ∧ (i / 4 = j / 4 ∨ i % 4 = j % 4 ∨ (i / 8 = j / 8 ∧ i % 4 / 2 = j % 4 / 2)))) := by
  decide

theorem claim_C3_witness :
    Sudoku4.adjacent 0 4 ↔
      (0 ≠ 4 ∧ (0 / 4 = 4 / 4 ∨ 0 % 4 = 4 % 4 ∨ (0 / 8 = 4 / 8 ∧ 0 % 4 / 2 = 4 % 4 / 2))) :=
  claim_C3_adjacent4_bitmask_iff_rowcolblock 0 (by decide) 4 (by decide)

/-- C5: in both variants the adjacency predicate is irreflexive and
symmetric on the valid cell indices. -/
theorem claim_C5_adjacent_irrefl_symm :
    ∀ i j : Nat,
      (i < 81 → j < 81 →
        ¬ Sudoku.adjacent i i ∧ (Sudoku.adjacent i j ↔ Sudoku.adjacent j i)) ∧
      (i < 16 → j < 16 →
        ¬ Sudoku4.adjacent i i ∧ (Sudoku4.adjacent i j ↔ Sudoku4.adjacent j i)) := by
  have h9 : ∀ a b : Nat, Sudoku.adjacent a b → Sudoku.adjacent b a := by
    rintro a b ⟨hne, h1 | h2 | ⟨h3, h4⟩⟩
    · exact ⟨hne.symm, Or.inl h1.symm⟩
    · exact ⟨hne.symm, Or.inr (Or.inl h2.symm)⟩
    · exact ⟨hne.symm, Or.inr (Or.inr ⟨h3.symm, h4.symm⟩)⟩
  have h4s : ∀ a b : Nat, Sudoku4.adjacent a b → Sudoku4.adjacent b a := by
    rintro a b ⟨hne, k, hk, heq⟩
    exact ⟨hne.symm, k, hk, heq.symm⟩
  intro i j
  constructor
  · intro _ _
    exact ⟨fun h => h.1 rfl, ⟨h9 i j, h9 j i⟩⟩
  · intro _ _
    exact ⟨fun h => h.1 rfl, ⟨h4s i j, h4s j i⟩⟩

theorem claim_C5_witness :
    (¬ Sudoku.adjacent 0 0 ∧ (Sudoku.adjacent 0 1 ↔ Sudoku.adjacent 1 0)) ∧
    (¬ Sudoku4.adjacent 0 0 ∧ (Sudoku4.adjacent 0 1 ↔ Sudoku4.adjacent 1 0)) :=
  ⟨(claim_C5_adjacent_irrefl_symm 0 1).1 (by decide) (by decide),
   (claim_C5_adjacent_irrefl_symm 0 1).2 (by decide) (by decide)⟩

/-- C9: the color-to-value lookup of the 9x9 decode records, for every
color, the value of the last clue in clue-list order whose cell is
colored with that color, later clues overwriting earlier ones. -/
theorem claim_C9_last_clue_wins (coloring : Nat → Option Color) (clues : List (Nat × Nat))
    (c : Color) :
    Sudoku.lookupFun coloring clues c =
      ((clues.filter fun p => decide (coloring p.1 = some c)).map Prod.snd).getLast? :=
  lookupFun_apply coloring clues c

/-- C2, counterexample: with a coloring that assigns the sentinel string
to the clue cell 0, the sentinel is a key of the lookup, and the
uncolored cell 1 decodes to the clue value 5 instead of the fallback 9,
so the fallback is not returned exactly at the uncolored or unknown
cells. -/
theorem claim_C2_counterexample :
    ((fun n => if n = 0 then some Sudoku.sentinel else none) : Nat → Option Color) 1 = none ∧
    (Sudoku.decode (fun n => if n = 0 then some Sudoku.sentinel else none) [(0, 5)]).getD 1 0
      = 5 ∧ (5 : Nat) ≠ 9 :=
  ⟨rfl, by decide, by decide⟩

/-- C2, amended: the decoded value at any real cell i is literally
lookup.get(coloring.get(i, sentinel), 9); and provided the sentinel is
not itself a key of the lookup, the lookup falls through to the fallback
exactly when cell i is uncolored or its color has no recorded digit. -/
theorem claim_C2_decode_fallback_amended (coloring : Nat → Option Color)
    (clues : List (Nat × Nat)) (i : Nat) (h : i < 81) :
    (Sudoku.decode coloring clues).getD i 0 =
      (Sudoku.lookupFun coloring clues ((coloring i).getD Sudoku.sentinel)).getD 9 ∧
    (Sudoku.lookupFun coloring clues Sudoku.sentinel = none →
      (Sudoku.lookupFun coloring clues ((coloring i).getD Sudoku.sentinel) = none ↔
        coloring i = none ∨
          ∃ c, coloring i = some c ∧ Sudoku.lookupFun coloring clues c = none)) := by
  refine ⟨decode_getD coloring clues h, ?_⟩
  intro hsent
  cases hci : coloring i with
  | none => simp [hsent]
  | some c => simp

theorem claim_C2_witness :
    (Sudoku.decode (fun _ => none) []).getD 0 0 =
      (Sudoku.lookupFun (fun _ => none) [] ((none : Option Color).getD Sudoku.sentinel)).getD 9 ∧
    (Sudoku.lookupFun (fun _ => none) [] ((none : Option Color).getD Sudoku.sentinel) = none ↔
      (none : Option Color) = none ∨
        ∃ c, (none : Option Color) = some c ∧ Sudoku.lookupFun (fun _ => none) [] c = none) :=
  ⟨(claim_C2_decode_fallback_amended (fun _ => none) [] 0 (by decide)).1,
   (claim_C2_decode_fallback_amended (fun _ => none) [] 0 (by decide)).2 rfl⟩

/-- C6: when the coloring covers every clue cell and clue-cell colors
agree exactly when clue values agree, decode reproduces every clue value
at its real cell. -/
theorem claim_C6_decode_left_inverse (coloring : Nat → Option Color)
    (clues : List (Nat × Nat))
    (hcov : ∀ p ∈ clues, (coloring p.1).isSome)
    (hinj : ∀ p ∈ clues, ∀ q ∈ clues, (coloring p.1 = coloring q.1 ↔ p.2 = q.2)) :
    ∀ p ∈ clues, p.1 < 81 → (Sudoku.decode coloring clues).getD p.1 0 = p.2 := by
  intro p hp hlt
  rw [decode_getD coloring clues hlt]
  obtain ⟨c, hc⟩ := Option.isSome_iff_exists.mp (hcov p hp)
  rw [hc, Option.getD_some]
  cases hl : Sudoku.lookupFun coloring clues c with
  | none =>
    exact absurd hc ((lookupFun_eq_none_iff coloring clues c).mp hl p hp)
  | some v =>
    obtain ⟨q, hq, hqc, hqv⟩ := lookupFun_eq_some coloring clues hl
    have hcc : coloring q.1 = coloring p.1 := by rw [hqc, hc]
    have h2 : q.2 = p.2 := (hinj q hq p hp).mp hcc
    rw [Option.getD_some, ← hqv, h2]

theorem claim_C6_witness :
    (Sudoku.decode (fun n => if n = 0 then some (Color.nat 0) else none) [(0, 5)]).getD 0 0
      = 5 :=
  claim_C6_decode_left_inverse (fun n => if n = 0 then some (Color.nat 0) else none) [(0, 5)]
    (by decide) (by decide) (0, 5) (by decide) (by decide)

/-- C10: decode of the 9x9 variant is total, always returns exactly 81
entries, and every entry is either the fallback digit 9 or the value of
some clue. -/
theorem claim_C10_decode_total (coloring : Nat → Option Color) (clues : List (Nat × Nat)) :
    (Sudoku.decode coloring clues).length = 81 ∧
    ∀ d ∈ Sudoku.decode coloring clues, d = 9 ∨ ∃ p ∈ clues, d = p.2 := by
  constructor
  · simp [Sudoku.decode]
  · intro d hd
    rw [Sudoku.decode] at hd
    obtain ⟨i, -, hi⟩ := List.mem_map.mp hd
    cases hl : Sudoku.lookupFun coloring clues ((coloring i).getD Sudoku.sentinel) with
    | none =>
      left
      rw [← hi, hl]
      rfl
    | some v =>
      right
      obtain ⟨p, hp, -, hpv⟩ := lookupFun_eq_some coloring clues hl
      refine ⟨p, hp, ?_⟩
      rw [← hi, hl, Option.getD_some]
      exact hpv.symm

theorem claim_C10_witness :
    (Sudoku.decode (fun _ => none) []).length = 81 ∧
    ∀ d ∈ Sudoku.decode (fun _ => none) [], d = 9 ∨ ∃ p ∈ ([] : List (Nat × Nat)), d = p.2 :=
  claim_C10_decode_total (fun _ => none) []

/-- C8: the 4x4 decode fails exactly when some clue cell is uncolored,
some grid cell below 16 is uncolored, or some colored grid cell below 16
carries a color that no colored clue cell carries, so that the color is
absent from the color-to-value lookup; otherwise it decodes without
error. -/
theorem claim_C8_decode4_error_iff (coloring : Nat → Option Color) (clues : List (Nat × Nat)) :
    Sudoku4.decode coloring clues = none ↔
      (∃ p ∈ clues, coloring p.1 = none) ∨
      (∃ i < 16, coloring i = none) ∨
      (∃ i < 16, ∃ c, coloring i = some c ∧ ∀ p ∈ clues, coloring p.1 ≠ some c) := by
  cases hm : mapOpt (fun p => (coloring p.1).map fun c => (c, p.2)) clues with
  | none =>
    have hex : ∃ p ∈ clues, coloring p.1 = none := by
      obtain ⟨p, hp, hgp⟩ := (mapOpt_eq_none_iff _ clues).mp hm
      refine ⟨p, hp, ?_⟩
      cases hcp : coloring p.1 with
      | none => rfl
      | some c =>
        rw [hcp] at hgp
        cases hgp
    have hdec : Sudoku4.decode coloring clues = none := by
      unfold Sudoku4.decode
      rw [hm]
    constructor
    · intro _
      exact Or.inl hex
    · intro _
      exact hdec
  | some pairs =>
    have hps := (mapOpt_eq_some_iff _ clues pairs).mp hm
    have hdec : Sudoku4.decode coloring clues =
        mapOpt (fun i =>
          match coloring i with
          | some c => dictOf pairs c
          | none => none) (List.range 16) := by
      unfold Sudoku4.decode
      rw [hm]
    rw [hdec]
    constructor
    · intro hd
      obtain ⟨i, hir, hfi⟩ := (mapOpt_eq_none_iff _ _).mp hd
      rw [List.mem_range] at hir
      right
      cases hci : coloring i with
      | none => exact Or.inl ⟨i, hir, hci⟩
      | some c =>
        right
        refine ⟨i, hir, c, hci, ?_⟩
        rw [hci] at hfi
        have hq := (dictOf_eq_none_iff pairs c).mp hfi
        intro p hp hpc
        have hmem : (c, p.2) ∈ pairs := by
          rw [hps.2]
          refine List.mem_filterMap.mpr ⟨p, hp, ?_⟩
          rw [hpc]
          rfl
        exact hq _ hmem rfl
    · intro hd
      rcases hd with ⟨p, hp, hpc⟩ | ⟨i, hir, hci⟩ | ⟨i, hir, c, hci, hcall⟩
      · have hsome := hps.1 p hp
        rw [hpc] at hsome
        cases hsome
      · apply (mapOpt_eq_none_iff _ _).mpr
        refine ⟨i, List.mem_range.mpr hir, ?_⟩
        rw [hci]
      · apply (mapOpt_eq_none_iff _ _).mpr
        refine ⟨i, List.mem_range.mpr hir, ?_⟩
        rw [hci]
        apply (dictOf_eq_none_iff pairs c).mpr
        intro q hq
        rw [hps.2] at hq
        obtain ⟨p, hp, hgp⟩ := List.mem_filterMap.mp hq
        cases hcp : coloring p.1 with
        | none =>
          rw [hcp] at hgp
          cases hgp
        | some c2 =>
          rw [hcp] at hgp
          injection hgp with h3
          have h3b : q = (c2, p.2) := h3.symm
          subst h3b
          intro h4
          exact hcall p hp (by rw [hcp]; exact congrArg some h4)

theorem claim_C8_witness : Sudoku4.decode (fun _ => none) [] = none :=
  (claim_C8_decode4_error_iff (fun _ => none) []).mpr (Or.inr (Or.inl ⟨0, by decide, rfl⟩))

theorem realClues_snd_bounds {board : List Char} {v : Nat}
    (h : v ∈ (Sudoku.realClues board).map Prod.snd) : 1 ≤ v ∧ v ≤ 9 := by
  rw [Sudoku.realClues, List.map_map] at h
  obtain ⟨p, hp, hv⟩ := List.mem_map.mp h
  have hf := (List.mem_filter.mp hp).2
  rw [Bool.and_eq_true] at hf
  have h1 : 48 ≤ p.2.toNat ∧ p.2.toNat ≤ 57 := by
    have h0 := hf.1
    rw [Sudoku.isdigit, Bool.and_eq_true] at h0
    exact ⟨of_decide_eq_true h0.1, of_decide_eq_true h0.2⟩
  have h2 : p.2.toNat ≠ 48 := of_decide_eq_true hf.2
  rw [← hv]
  simp only [Function.comp_apply, Sudoku.charDigit]
  omega

theorem missingVals_mem (board : List Char) (v : Nat) :
    v ∈ Sudoku.missingVals board ↔
      1 ≤ v ∧ v ≤ 9 ∧ v ∉ (Sudoku.realClues board).map Prod.snd := by
  rw [Sudoku.missingVals]
  simp only [List.mem_filter, List.mem_range'_1, decide_eq_true_eq]
  constructor
  · rintro ⟨⟨h1, h2⟩, h3⟩
    exact ⟨h1, by omega, h3⟩
  · rintro ⟨h1, h2, h3⟩
    exact ⟨⟨h1, by omega⟩, h3⟩

theorem phantom_snd (board : List Char) :
    (((Sudoku.missingVals board).enum.map fun p => (81 + p.1, p.2)).map Prod.snd) =
      Sudoku.missingVals board := by
  rw [List.map_map]
  have h0 : (Prod.snd ∘ fun p : Nat × Nat => (81 + p.1, p.2)) = Prod.snd := rfl
  rw [h0, List.enum_map_snd]

/-- C4: for an 81-character grid, the clue values of make_clues cover
exactly the digits 1 to 9; every digit character other than zero yields
a real clue at its grid position; every clue sits either at a real index
below 81 or at the fresh phantom index 81 + k carrying the k-th missing
value; and the missing values are exactly the digits of 1 to 9 absent
from the real clues, each occurring once. -/
theorem claim_C4_make_clues_value_set (board : List Char) (h : board.length = 81) :
    (∀ v, v ∈ (Sudoku.make_clues board).map Prod.snd ↔ 1 ≤ v ∧ v ≤ 9) ∧
    (∀ i x, (i, x) ∈ board.enum → Sudoku.isdigit x → x.toNat ≠ 48 →
      (i, Sudoku.charDigit x) ∈ Sudoku.make_clues board) ∧
    (∀ p ∈ Sudoku.make_clues board,
      p.1 < 81 ∨ (81 ≤ p.1 ∧ p.1 < 81 + (Sudoku.missingVals board).length ∧
        p.2 = (Sudoku.missingVals board).getD (p.1 - 81) 0)) ∧
    (Sudoku.missingVals board).Nodup ∧
    (∀ v, v ∈ Sudoku.missingVals board ↔
      1 ≤ v ∧ v ≤ 9 ∧ v ∉ (Sudoku.realClues board).map Prod.snd) := by
  refine ⟨?_, ?_, ?_, (List.nodup_range' 1 9).filter _, fun v => missingVals_mem board v⟩
  · intro v
    rw [Sudoku.make_clues, List.map_append, List.mem_append, phantom_snd]
    constructor
    · rintro (hv | hv)
      · exact realClues_snd_bounds hv
      · have h0 := (missingVals_mem board v).mp hv
        exact ⟨h0.1, h0.2.1⟩
    · rintro ⟨h1, h2⟩
      by_cases hreal : v ∈ (Sudoku.realClues board).map Prod.snd
      · exact Or.inl hreal
      · exact Or.inr ((missingVals_mem board v).mpr ⟨h1, h2, hreal⟩)
  · intro i x hmem hdig hne
    rw [Sudoku.make_clues, List.mem_append]
    left
    rw [Sudoku.realClues]
    refine List.mem_map.mpr ⟨(i, x), List.mem_filter.mpr ⟨hmem, ?_⟩, rfl⟩
    rw [Bool.and_eq_true]
    exact ⟨hdig, decide_eq_true hne⟩
  · intro p hp
    rw [Sudoku.make_clues, List.mem_append] at hp
    rcases hp with hp | hp
    · left
      rw [Sudoku.realClues] at hp
      obtain ⟨q, hq, hpq⟩ := List.mem_map.mp hp
      obtain ⟨qi, qx⟩ := q
      have hqe := (List.mem_filter.mp hq).1
      have hget : board[qi]? = some qx := List.mem_enum_iff_getElem?.mp hqe
      have hlt : qi < board.length := (List.getElem?_eq_some.mp hget).1
      have hp1 : p.1 = qi := by rw [← hpq]
      rw [hp1]
      omega
    · right
      obtain ⟨q, hq, hpq⟩ := List.mem_map.mp hp
      obtain ⟨k, v⟩ := q
      have hget : (Sudoku.missingVals board)[k]? = some v := List.mem_enum_iff_getElem?.mp hq
      have hlt : k < (Sudoku.missingVals board).length := (List.getElem?_eq_some.mp hget).1
      have hp1 : p.1 = 81 + k := by rw [← hpq]
      have hp2 : p.2 = v := by rw [← hpq]
      refine ⟨by omega, by omega, ?_⟩
      have hk : p.1 - 81 = k := by omega
      rw [hp2, hk, List.getD_eq_getElem?_getD, hget]
      rfl

theorem claim_C4_witness :
    (∀ v, v ∈ (Sudoku.make_clues (List.replicate 81 '.')).map Prod.snd ↔ 1 ≤ v ∧ v ≤ 9) ∧
    (∀ i x, (i, x) ∈ (List.replicate 81 '.').enum → Sudoku.isdigit x → x.toNat ≠ 48 →
      (i, Sudoku.charDigit x) ∈ Sudoku.make_clues (List.replicate 81 '.')) ∧
    (∀ p ∈ Sudoku.make_clues (List.replicate 81 '.'),
      p.1 < 81 ∨ (81 ≤ p.1 ∧ p.1 < 81 + (Sudoku.missingVals (List.replicate 81 '.')).length ∧
        p.2 = (Sudoku.missingVals (List.replicate 81 '.')).getD (p.1 - 81) 0)) ∧
    (Sudoku.missingVals (List.replicate 81 '.')).Nodup ∧
    (∀ v, v ∈ Sudoku.missingVals (List.replicate 81 '.') ↔
      1 ≤ v ∧ v ≤ 9 ∧ v ∉ (Sudoku.realClues (List.replicate 81 '.')).map Prod.snd) :=
  claim_C4_make_clues_value_set (List.replicate 81 '.') (by simp)

/-- C1: cost equals the spec count of violating unordered pairs, and is
zero exactly when no two adjacent cells below 81 hold equal values, so
it is positive exactly when some row, column or block duplicate
exists. -/
theorem claim_C1_cost_counts_conflicts (a : List Nat) (h : a.length = 81) :
    Sudoku.cost a = Sudoku.cost_spec a ∧
    (Sudoku.cost a = 0 ↔
      ∀ i j, i < j → j < 81 → Sudoku.adjacent i j → a.getD i 0 ≠ a.getD j 0) := by
  constructor
  · rw [Sudoku.cost, List.countP_eq_length_filter]
    have hnd : (List.filter
        (fun p : Nat × Nat =>
          decide (Sudoku.adjacent p.1 p.2) && decide (a.getD p.1 0 = a.getD p.2 0))
        (comb2 (List.range 81))).Nodup :=
      (nodup_comb2 (List.nodup_range 81)).filter _
    rw [← List.toFinset_card_of_nodup hnd]
    have hset : (List.filter
        (fun p : Nat × Nat =>
          decide (Sudoku.adjacent p.1 p.2) && decide (a.getD p.1 0 = a.getD p.2 0))
        (comb2 (List.range 81))).toFinset =
        (Finset.range 81 ×ˢ Finset.range 81).filter fun p =>
          p.1 < p.2 ∧ Sudoku.adjacent p.1 p.2 ∧ a.getD p.1 0 = a.getD p.2 0 := by
      ext p
      obtain ⟨i, j⟩ := p
      simp only [List.mem_toFinset, List.mem_filter, mem_comb2_range, Finset.mem_filter,
        Finset.mem_product, Finset.mem_range, Bool.and_eq_true, decide_eq_true_eq]
      constructor
      · rintro ⟨⟨hij, hj⟩, hadj, heq⟩
        exact ⟨⟨by omega, hj⟩, hij, hadj, heq⟩
      · rintro ⟨⟨hi, hj⟩, hij, hadj, heq⟩
        exact ⟨⟨hij, hj⟩, hadj, heq⟩
    rw [hset, Sudoku.cost_spec]
  · rw [Sudoku.cost, List.countP_eq_zero]
    constructor
    · intro hall i j hij hj81 hadj heq
      have hmem : (i, j) ∈ comb2 (List.range 81) := mem_comb2_range.mpr ⟨hij, hj81⟩
      exact hall _ hmem (by rw [decide_eq_true hadj, decide_eq_true heq]; rfl)
    · intro hall p hp
      obtain ⟨i, j⟩ := p
      obtain ⟨hij, hj⟩ := mem_comb2_range.mp hp
      intro hq
      rw [Bool.and_eq_true, decide_eq_true_eq, decide_eq_true_eq] at hq
      exact hall i j hij hj hq.1 hq.2

theorem claim_C1_witness :
    Sudoku.cost (List.replicate 81 0) = Sudoku.cost_spec (List.replicate 81 0) ∧
    (Sudoku.cost (List.replicate 81 0) = 0 ↔
      ∀ i j, i < j → j < 81 → Sudoku.adjacent i j →
        (List.replicate 81 0).getD i 0 ≠ (List.replicate 81 0).getD j 0) :=
  claim_C1_cost_counts_conflicts (List.replicate 81 0) (by simp)

theorem cluePairEdge_cons (x : Nat × Nat) (l : List (Nat × Nat)) (u v : Nat) :
    cluePairEdge (x :: l) u v ↔
      (∃ b ∈ l, x.2 ≠ b.2 ∧ ((x.1 = u ∧ b.1 = v) ∨ (x.1 = v ∧ b.1 = u))) ∨
        cluePairEdge l u v := by
  unfold cluePairEdge
  constructor
  · rintro ⟨q, hq, hprop⟩
    rcases (mem_comb2_cons x l q).mp hq with ⟨b, hb, rfl⟩ | hq2
    · exact Or.inl ⟨b, hb, hprop⟩
    · exact Or.inr ⟨q, hq2, hprop⟩
  · rintro (⟨b, hb, hprop⟩ | ⟨q, hq, hprop⟩)
    · exact ⟨(x, b), (mem_comb2_cons x l (x, b)).mpr (Or.inl ⟨b, hb, rfl⟩), hprop⟩
    · exact ⟨q, (mem_comb2_cons x l q).mpr (Or.inr hq), hprop⟩

theorem cluePairEdge_perm {l l2 : List (Nat × Nat)} (h : l.Perm l2) (u v : Nat) :
    cluePairEdge l u v ↔ cluePairEdge l2 u v := by
  have hflip : ∀ a b : Nat × Nat,
      (a.2 ≠ b.2 ∧ ((a.1 = u ∧ b.1 = v) ∨ (a.1 = v ∧ b.1 = u))) →
      (b.2 ≠ a.2 ∧ ((b.1 = u ∧ a.1 = v) ∨ (b.1 = v ∧ a.1 = u))) := by
    rintro a b ⟨hne, ⟨h1, h2⟩ | ⟨h1, h2⟩⟩
    · exact ⟨hne.symm, Or.inr ⟨h2, h1⟩⟩
    · exact ⟨hne.symm, Or.inl ⟨h2, h1⟩⟩
  induction h with
  | nil => exact Iff.rfl
  | cons x htail ih =>
    rw [cluePairEdge_cons, cluePairEdge_cons]
    constructor
    · rintro (⟨b, hb, hR⟩ | h2)
      · exact Or.inl ⟨b, htail.mem_iff.mp hb, hR⟩
      · exact Or.inr (ih.mp h2)
    · rintro (⟨b, hb, hR⟩ | h2)
      · exact Or.inl ⟨b, htail.mem_iff.mpr hb, hR⟩
      · exact Or.inr (ih.mpr h2)
  | swap x y l =>
    rw [cluePairEdge_cons, cluePairEdge_cons, cluePairEdge_cons, cluePairEdge_cons]
    simp only [List.mem_cons]
    constructor
    · rintro (⟨b, rfl | hb, hR⟩ | ⟨b, hb, hR⟩ | h2)
      · exact Or.inl ⟨y, Or.inl rfl, hflip _ _ hR⟩
      · exact Or.inr (Or.inl ⟨b, hb, hR⟩)
      · exact Or.inl ⟨b, Or.inr hb, hR⟩
      · exact Or.inr (Or.inr h2)
    · rintro (⟨b, rfl | hb, hR⟩ | ⟨b, hb, hR⟩ | h2)
      · exact Or.inl ⟨x, Or.inl rfl, hflip _ _ hR⟩
      · exact Or.inr (Or.inl ⟨b, hb, hR⟩)
      · exact Or.inl ⟨b, Or.inr hb, hR⟩
      · exact Or.inr (Or.inr h2)
  | trans h1 h2 ih1 ih2 => exact ih1.trans ih2

theorem cluePairEdge_irrefl {clues : List (Nat × Nat)}
    (hnd : (clues.map Prod.fst).Nodup) (u : Nat) : ¬ cluePairEdge clues u u := by
  rintro ⟨q, hq, hne, hor⟩
  have hsub2 := (mem_comb2_sublist hq).map Prod.fst
  have hnd2 := hnd.sublist hsub2
  have hq12 : q.1.1 ≠ q.2.1 := by
    have h0 := List.nodup_cons.mp hnd2
    intro heq
    exact h0.1 (by rw [heq]; exact List.mem_cons_self _ _)
  rcases hor with ⟨h1, h2⟩ | ⟨h1, h2⟩ <;> exact hq12 (by rw [h1, h2])

/-- C7, counterexample: a clue list holding two clues at the same cell
with different values makes the graph builder add the loop edge (0, 0),
so the claim that no clue list ever produces a self-loop fails. -/
theorem claim_C7_counterexample : Sudoku.make_sudoku_graph [(0, 1), (0, 2)] 0 0 :=
  Or.inr ⟨((0, 1), (0, 2)), by decide, by decide⟩

/-- C7, amended: for a clue list whose cell indices are pairwise
distinct, as make_clues always produces, neither variant of
make_sudoku_graph has a self-loop; and for every clue list the edge set
of either variant is unchanged under any permutation of the clues. -/
theorem claim_C7_noloop_and_perm (clues clues2 : List (Nat × Nat)) (u v : Nat) :
    ((clues.map Prod.fst).Nodup →
      ¬ Sudoku.make_sudoku_graph clues u u ∧ ¬ Sudoku4.make_sudoku_graph clues u u) ∧
    (clues.Perm clues2 →
      (Sudoku.make_sudoku_graph clues u v ↔ Sudoku.make_sudoku_graph clues2 u v) ∧
      (Sudoku4.make_sudoku_graph clues u v ↔ Sudoku4.make_sudoku_graph clues2 u v)) := by
  constructor
  · intro hnd
    constructor
    · rintro (⟨p, hp, hadj, hor⟩ | hcp)
      · have h12 : p.1 = p.2 := by rcases hor with ⟨h1, h2⟩ | ⟨h1, h2⟩ <;> rw [h1, h2]
        exact hadj.1 h12
      · exact cluePairEdge_irrefl hnd u hcp
    · rintro (⟨p, hp, hadj, hor⟩ | hcp)
      · have h12 : p.1 = p.2 := by rcases hor with ⟨h1, h2⟩ | ⟨h1, h2⟩ <;> rw [h1, h2]
        exact hadj.1 h12
      · exact cluePairEdge_irrefl hnd u hcp
  · intro hperm
    constructor
    · unfold Sudoku.make_sudoku_graph
      rw [cluePairEdge_perm hperm]
    · unfold Sudoku4.make_sudoku_graph
      rw [cluePairEdge_perm hperm]

theorem claim_C7_witness :
    (¬ Sudoku.make_sudoku_graph [(0, 1)] 0 0 ∧ ¬ Sudoku4.make_sudoku_graph [(0, 1)] 0 0) ∧
    ((Sudoku.make_sudoku_graph [(0, 1)] 0 1 ↔ Sudoku.make_sudoku_graph [(0, 1)] 0 1) ∧
      (Sudoku4.make_sudoku_graph [(0, 1)] 0 1 ↔ Sudoku4.make_sudoku_graph [(0, 1)] 0 1)) :=
  ⟨(claim_C7_noloop_and_perm [(0, 1)] [(0, 1)] 0 1).1 (by decide),
   (claim_C7_noloop_and_perm [(0, 1)] [(0, 1)] 0 1).2 (List.Perm.refl _)⟩
